import Mathlib

/-!
Verification development for the exchange-session manager and news channel of
the Crypto-Terminal repository.  The definitions below are a shallow embedding
of the TypeScript sources:

  * src/services/binanceService.ts   (trading session, signer, legalization)
  * src/services/newsService.ts      (news cache pagination)
  * src/workers/news.worker.ts       (news feed reconnection backoff)
  * src/config/websocket.ts          (websocketConfig)

Machine floating point arithmetic on monetary values is modelled with exact
rationals (the wire carries decimal strings; all claims under study are about
exact decimal quantities).  Promise resolve/reject callbacks are modelled by
recording correlation ids and by explicit outcome values.  HMAC-SHA256 and
percent-encoding are library calls, not repository code; they are taken as
function parameters (`hmac`, `enc`) so every statement holds for the real
implementations.
-/

namespace CryptoTerminal

/-! ### JavaScript string ordering

`Object.keys(params).sort()` sorts keys by UTF-16 code units.  We model the
comparison as lexicographic order on the character lists of the strings,
comparing code points. -/

/-- Lexicographic less-or-equal on character lists, by code point. -/
def charListLe : List Char → List Char → Bool
  | [], _ => true
  | _ :: _, [] => false
  | a :: as, b :: bs =>
    if a.toNat < b.toNat then true
    else if b.toNat < a.toNat then false
    else charListLe as bs

/-- JavaScript default string comparison (code-unit lexicographic order). -/
def strLe (a b : String) : Bool := charListLe a.data b.data

/-- `Array.prototype.sort()` applied to an object's key list. -/
def sortKeys (ks : List String) : List String :=
  List.insertionSort (fun a b => strLe a b = true) ks

/-! ### websocketConfig (src/config/websocket.ts) -/

/-- The `settings` block of `websocketConfig` (src/config/websocket.ts:37-45). -/
structure WsSettings where
  reconnectDelay : ℚ
  recvWindow : String
  heartbeatInterval : ℚ
  heartbeatTimeout : ℚ
  exponentialBackoff : Bool
  maxReconnectDelay : ℚ
deriving DecidableEq

/-- `websocketConfig.settings` as shipped in the repository:
reconnectDelay 1000, recvWindow "5000", heartbeatInterval 1000,
heartbeatTimeout 5000, exponentialBackoff false, maxReconnectDelay 1000. -/
def websocketSettings : WsSettings :=
  { reconnectDelay := 1000
    recvWindow := "5000"
    heartbeatInterval := 1000
    heartbeatTimeout := 5000
    exponentialBackoff := false
    maxReconnectDelay := 1000 }

/-- `websocketConfig.methods.position` (src/config/websocket.ts:24). -/
def methodPosition : String := "v2/account.position"

/-- `websocketConfig.methods.orderPlace` (src/config/websocket.ts:26). -/
def methodOrderPlace : String := "order.place"

/-! ### Signer (binanceService.ts:504-514 and the REST call sites) -/

/-- A JavaScript object used as a parameter bag: its keys in insertion order
and the value found at each key. -/
structure JsObject where
  keys : List String
  get : String → String

/-- Builds a `JsObject` from a key/value list in insertion order
(keys assumed distinct, as for every literal in the source). -/
def jsObjectOf (ps : List (String × String)) : JsObject :=
  { keys := ps.map (fun kv => kv.1)
    get := fun k => (ps.lookup k).getD "" }

/-- The query string signed by `createSignature` (binanceService.ts:506-509):
keys sorted, each rendered `enc(key)=enc(value)`, joined with `&`.
`enc` models `encodeURIComponent`. -/
def createSignatureQuery (enc : String → String) (o : JsObject) : String :=
  String.intercalate "&"
    ((sortKeys o.keys).map (fun k => enc k ++ "=" ++ enc (o.get k)))

/-- `createSignature` (binanceService.ts:504-514): HMAC-SHA256 of the sorted
query string with the API secret.  `hmac` models `CryptoJS.HmacSHA256`. -/
def createSignature (hmac : String → String → String) (enc : String → String)
    (apiSecret : String) (o : JsObject) : String :=
  hmac (createSignatureQuery enc o) apiSecret

/-- The spread `{ ...baseParams, signature }` used by every WebSocket signed
call: the signature is appended after the existing keys
(no call site has a prior `signature` key). -/
def withSignature (hmac : String → String → String) (enc : String → String)
    (apiSecret : String) (o : JsObject) : JsObject :=
  { keys := o.keys ++ ["signature"]
    get := fun k => if k = "signature" then createSignature hmac enc apiSecret o else o.get k }

/-- `URLSearchParams.toString()`: entries serialized in insertion order.
`enc` models the form-urlencoding of keys and values. -/
def urlParamsToString (enc : String → String) (ps : List (String × String)) : String :=
  String.intercalate "&" (ps.map (fun kv => enc kv.1 ++ "=" ++ enc kv.2))

/-- The parameter list built by `updateMarginType` (binanceService.ts:106-110),
in `append` order: symbol, marginType, timestamp, recvWindow. -/
def updateMarginTypeParams (symbol marginType timestamp : String) : List (String × String) :=
  [("symbol", symbol), ("marginType", marginType), ("timestamp", timestamp),
   ("recvWindow", websocketSettings.recvWindow)]

/-- The request body sent by `updateMarginType` (binanceService.ts:113-119):
the signature is HMAC-SHA256 of `params.toString()` — the insertion-order
serialization — and is appended last. -/
def updateMarginTypeSignedBody (hmac : String → String → String) (enc : String → String)
    (apiSecret : String) (symbol marginType timestamp : String) : List (String × String) :=
  let ps := updateMarginTypeParams symbol marginType timestamp
  ps ++ [("signature", hmac (urlParamsToString enc ps) apiSecret)]

/-- The parameter list built by `updateLeverage` (binanceService.ts:199-203),
in `append` order: symbol, leverage, timestamp, recvWindow. -/
def updateLeverageParams (symbol leverage timestamp : String) : List (String × String) :=
  [("symbol", symbol), ("leverage", leverage), ("timestamp", timestamp),
   ("recvWindow", websocketSettings.recvWindow)]

/-- The request body sent by `updateLeverage` (binanceService.ts:206-212). -/
def updateLeverageSignedBody (hmac : String → String → String) (enc : String → String)
    (apiSecret : String) (symbol leverage timestamp : String) : List (String × String) :=
  let ps := updateLeverageParams symbol leverage timestamp
  ps ++ [("signature", hmac (urlParamsToString enc ps) apiSecret)]

/-! ### Symbol rules and order legalization (binanceService.ts:447-502) -/

/-- The `LOT_SIZE` filter of a symbol (parsed values). -/
structure LotSizeFilter where
  minQty : ℚ
  maxQty : ℚ
  stepSize : ℚ
deriving DecidableEq

/-- The `PRICE_FILTER` of a symbol (parsed values). -/
structure PriceFilter where
  minPrice : ℚ
  maxPrice : ℚ
  tickSize : ℚ
deriving DecidableEq

/-- The `MIN_NOTIONAL` filter of a symbol (parsed value). -/
structure MinNotionalFilter where
  notional : ℚ
deriving DecidableEq

/-- Per-symbol info stored by `fetchExchangeInfo` (binanceService.ts:422-431);
the filter map is modelled by the three filters the service reads. -/
structure SymbolInfo where
  pricePrecision : ℕ
  quantityPrecision : ℕ
  lotSize : Option LotSizeFilter
  priceFilter : Option PriceFilter
  minNotional : Option MinNotionalFilter
deriving DecidableEq

/-- `Math.log10(1 / stepSize)` truncated to an integer, as `toFixed` does with
a fractional precision argument: the largest `k ≤ 30` with
`stepSize * 10^k ≤ 1` (for the exchange's sub-unit step sizes this is the
floor of `log10(1/stepSize)`). -/
def stepPrecision (s : ℚ) : ℕ :=
  Nat.findGreatest (fun k => s * 10 ^ k ≤ 1) 30

/-- `Number(x).toFixed(p)` followed by `parseFloat`: rounding to `p` decimal
places, ties away from zero upward (ECMAScript picks the larger candidate). -/
def toFixedRound (p : ℕ) (x : ℚ) : ℚ :=
  (round (x * 10 ^ p) : ℚ) / 10 ^ p

/-- `adjustQuantityPrecision` (binanceService.ts:447-468): clamp to
`[minQty, maxQty]`, floor to a multiple of `stepSize`, render at the precision
implied by `stepSize`.  Unknown symbol or missing `LOT_SIZE` filter returns the
input unchanged. -/
def adjustQuantityPrecision (symbolInfo : List (String × SymbolInfo))
    (symbol : String) (quantity : ℚ) : ℚ :=
  match symbolInfo.lookup symbol with
  | none => quantity
  | some info =>
    match info.lotSize with
    | none => quantity
    | some f =>
      let q := max f.minQty (min f.maxQty quantity)
      toFixedRound (stepPrecision f.stepSize) ((⌊q / f.stepSize⌋ : ℚ) * f.stepSize)

/-- `adjustPricePrecision` (binanceService.ts:470-491): same clamp-and-floor
discipline against `tickSize`. -/
def adjustPricePrecision (symbolInfo : List (String × SymbolInfo))
    (symbol : String) (price : ℚ) : ℚ :=
  match symbolInfo.lookup symbol with
  | none => price
  | some info =>
    match info.priceFilter with
    | none => price
    | some f =>
      let p := max f.minPrice (min f.maxPrice price)
      toFixedRound (stepPrecision f.tickSize) ((⌊p / f.tickSize⌋ : ℚ) * f.tickSize)

/-- `validateNotionalValue` (binanceService.ts:493-502): permissive on unknown
symbol or missing filter. -/
def validateNotionalValue (symbolInfo : List (String × SymbolInfo))
    (symbol : String) (quantity price : ℚ) : Bool :=
  match symbolInfo.lookup symbol with
  | none => true
  | some info =>
    match info.minNotional with
    | none => true
    | some f => decide (f.notional ≤ quantity * price)

/-! ### Positions (binanceService.ts:1049-1083) -/

/-- Position direction, `parseFloat(positionAmt) > 0 ? 'long' : 'short'`. -/
inductive PositionType where
  | long
  | short
deriving DecidableEq

/-- Margin type, `p.isolated ? 'ISOLATED' : 'CROSSED'`. -/
inductive MarginType where
  | isolated
  | crossed
deriving DecidableEq

/-- A raw position entry of a venue snapshot, with numeric wire strings
already parsed. -/
structure RawPosition where
  symbol : String
  positionSide : String
  positionAmt : ℚ
  entryPrice : ℚ
  markPrice : ℚ
  unRealizedProfit : ℚ
  initialMargin : ℚ
  positionInitialMargin : ℚ
  notional : ℚ
  liquidationPrice : ℚ
  breakEvenPrice : ℚ
  isolated : Bool
deriving DecidableEq

/-- A transformed position as stored in the position map. -/
structure Position where
  id : String
  symbol : String
  size : ℚ
  entryPrice : ℚ
  markPrice : ℚ
  pnl : ℚ
  pnlPercentage : ℚ
  type : PositionType
  leverage : String
  liquidationPrice : ℚ
  breakEvenPrice : ℚ
  positionInitialMargin : ℚ
  notional : ℚ
  marginType : MarginType
deriving DecidableEq

/-- The per-entry mapping of `transformPositions` (binanceService.ts:1052-1072). -/
def transformPosition (p : RawPosition) : Position :=
  { id := p.symbol ++ "-" ++ p.positionSide
    symbol := p.symbol
    size := p.positionAmt
    entryPrice := p.entryPrice
    markPrice := p.markPrice
    pnl := p.unRealizedProfit
    pnlPercentage := p.unRealizedProfit / p.initialMargin * 100
    type := if 0 < p.positionAmt then PositionType.long else PositionType.short
    leverage := toString (round |p.notional / p.initialMargin|) ++ "x"
    liquidationPrice := p.liquidationPrice
    breakEvenPrice := p.breakEvenPrice
    positionInitialMargin := p.positionInitialMargin
    notional := p.notional
    marginType := if p.isolated then MarginType.isolated else MarginType.crossed }

/-- `Map.prototype.set`: replace in place if the key exists, else append. -/
def mapSet {α : Type} (m : List (String × α)) (k : String) (v : α) : List (String × α) :=
  if m.any (fun kv => kv.1 == k) then
    m.map (fun kv => if kv.1 = k then (k, v) else kv)
  else m ++ [(k, v)]

/-- `transformPositions` (binanceService.ts:1049-1083): filter out zero-size
entries, transform, then `set` each result into the position map and its
margin type into the margin-type map.  Returns the updated maps and the
transformed list. -/
def transformPositions (posMap : List (String × Position))
    (marginMap : List (String × MarginType)) (raw : List RawPosition) :
    List (String × Position) × List (String × MarginType) × List Position :=
  let positions := (raw.filter (fun p => p.positionAmt ≠ 0)).map transformPosition
  let posMap' := positions.foldl (fun m pos => mapSet m pos.id pos) posMap
  let marginMap' := positions.foldl (fun m pos => mapSet m pos.symbol pos.marginType) marginMap
  (posMap', marginMap', positions)

/-! ### Trading session state (the fields of class BinanceService touched by
the operations under study, binanceService.ts:62-92) -/

/-- Connection status values (binanceService.ts:84). -/
inductive ConnStatus where
  | connecting
  | connected
  | disconnected
deriving DecidableEq

/-- The session state.  `wsOpen` collapses `this.ws !== null &&
this.ws.readyState === WebSocket.OPEN`; `messageHandlers` records the pending
correlation ids (the resolve/reject closures are elided); `reconnectTimeout`
records the delay of a scheduled reconnect timer, if any. -/
structure TradingState where
  apiKey : String
  apiSecret : String
  wsOpen : Bool
  messageHandlers : List String
  positionMap : List (String × Position)
  marginTypeMap : List (String × MarginType)
  marketPrices : List (String × ℚ)
  symbolInfo : List (String × SymbolInfo)
  isReconnecting : Bool
  reconnectTimeout : Option ℚ
  retryCount : ℕ
  heartbeatOn : Bool
  lastHeartbeat : ℚ
  currentStatus : ConnStatus
  isClosingAllPositions : Bool

/-- `hasCredentials` (binanceService.ts:352-360): `!!(apiKey && apiSecret)`,
the empty string being falsy. -/
def hasCredentials (st : TradingState) : Bool :=
  decide (st.apiKey ≠ "") && decide (st.apiSecret ≠ "")

/-- `setStatus` (binanceService.ts:342-350).  Returns the new state and the
status value broadcast to the connection-status handlers ( `[]` when nothing
is emitted). -/
def setStatus (status : ConnStatus) (st : TradingState) : TradingState × List ConnStatus :=
  if status = ConnStatus.disconnected ∧ hasCredentials st = false then (st, [])
  else if st.currentStatus = status then (st, [])
  else ({st with currentStatus := status}, [status])

/-- Runs a sequence of `setStatus` calls, collecting every emission in order.
Harness for the temporal claim about arbitrary call sequences. -/
def runSetStatuses : TradingState → List ConnStatus → TradingState × List ConnStatus
  | st, [] => (st, [])
  | st, s :: rest =>
    let r := setStatus s st
    let r2 := runSetStatuses r.1 rest
    (r2.1, r.2 ++ r2.2)

/-- `calculateReconnectDelay` of the trading session (binanceService.ts:693-704),
reading `websocketConfig.settings`. -/
def binanceReconnectDelay (retryCount : ℕ) : ℚ :=
  if websocketSettings.exponentialBackoff then
    min (websocketSettings.reconnectDelay * 2 ^ (retryCount - 1))
      websocketSettings.maxReconnectDelay
  else websocketSettings.reconnectDelay

/-- `handleDisconnect` (binanceService.ts:677-691): stop the heartbeat, clear
the reconnecting flag, null the socket, clear any reconnect timer, bump
`retryCount` and schedule a reconnect.  The second component is the list of
rejections delivered to pending requests — the function issues none and does
not touch `messageHandlers`. -/
def handleDisconnect (st : TradingState) : TradingState × List (String × String) :=
  ({st with
      heartbeatOn := false
      isReconnecting := false
      wsOpen := false
      retryCount := st.retryCount + 1
      reconnectTimeout := some (binanceReconnectDelay (st.retryCount + 1))}, [])

/-- A parsed frame received on the trading socket
(`{id, status, method?, result?}`; the `result` payload is modelled for the
position responses that the claims inspect). -/
structure WireResponse where
  id : String
  status : ℕ
  method : Option String
  result : Option (List RawPosition)

/-- Observable effects of one `ws.onmessage` dispatch. -/
structure MessageEffects where
  balanceNotified : Bool
  pushedPositions : List Position
  handlerDispatched : Bool

/-- The trading socket `onmessage` handler (binanceService.ts:750-773):
update the heartbeat, fan out balance data on any 200 response with a result,
apply position pushes through `transformPositions`, then dispatch and delete
the correlation entry matching `response.id`, if one exists. -/
def wsOnMessage (st : TradingState) (resp : WireResponse) (now : ℚ) :
    TradingState × MessageEffects :=
  let st1 := {st with lastHeartbeat := now}
  let balanceNotified := decide (resp.status = 200 ∧ resp.result ≠ none)
  let pushed :=
    if resp.method = some methodPosition ∧ resp.status = 200 then
      transformPositions st1.positionMap st1.marginTypeMap (resp.result.getD [])
    else (st1.positionMap, st1.marginTypeMap, [])
  let st2 := {st1 with positionMap := pushed.1, marginTypeMap := pushed.2.1}
  let dispatched := decide (resp.id ∈ st2.messageHandlers)
  let st3 :=
    if resp.id ∈ st2.messageHandlers then
      {st2 with messageHandlers := st2.messageHandlers.filter (fun i => i ≠ resp.id)}
    else st2
  (st3, ⟨balanceNotified, pushed.2.2, dispatched⟩)

/-- The response closure registered by `fetchPositions`
(binanceService.ts:1161-1178): on status 200, run `transformPositions` and
resolve with the transformed list; otherwise reject. -/
def fetchPositionsHandleResponse (st : TradingState) (resp : WireResponse) :
    TradingState × Except String (List Position) :=
  if resp.status = 200 then
    let r := transformPositions st.positionMap st.marginTypeMap (resp.result.getD [])
    ({st with positionMap := r.1, marginTypeMap := r.2.1}, Except.ok r.2.2)
  else (st, Except.error "Failed to fetch positions")

/-! ### placeOrder (binanceService.ts:871-973) -/

/-- Digits to a natural number, most significant first. -/
def digitsToNat (ds : List Char) : ℕ :=
  ds.foldl (fun n c => n * 10 + (c.toNat - 48)) 0

/-- Leftmost match of the pattern "one or more digits followed by K": the
accumulator holds the digits (reversed) read immediately before the cursor. -/
def findKNotional (acc : List Char) : List Char → Option ℕ
  | [] => none
  | c :: rest =>
    if c = 'K' ∧ acc ≠ [] then some (digitsToNat acc.reverse)
    else if c.isDigit then findKNotional (c :: acc) rest
    else findKNotional [] rest

/-- Leftmost run of digits in a character list. -/
def firstDigitRun : List Char → Option ℕ
  | [] => none
  | c :: rest =>
    if c.isDigit then some (digitsToNat ((c :: rest).takeWhile Char.isDigit))
    else firstDigitRun rest

/-- The notional parsing of `placeOrder` (binanceService.ts:896-909): default
1000; `(\d+)K` means thousands; otherwise the first digit run; an empty
(falsy) string keeps the default. -/
def parseNotionalValue (leverage : String) : ℚ :=
  if leverage = "" then 1000
  else
    match findKNotional [] leverage.data with
    | some n => (n : ℚ) * 1000
    | none =>
      match firstDigitRun leverage.data with
      | some n => (n : ℚ)
      | none => 1000

/-- The order parameters accepted by `placeOrder` (binanceService.ts:22-29). -/
structure OrderParams where
  symbol : String
  side : String
  positionMode : String
  type : String
  leverage : String
  price : Option ℚ

/-- A request frame written to the trading socket. -/
structure WireRequest where
  id : String
  method : String
  params : JsObject

/-- Outcome of an order-issuing operation: `toast` is a notification plus a
void resolution (the returned promise resolves); `thrown` is a synchronous
throw (the returned promise rejects); `requestSent` means the signed request
went on the wire with a pending correlation entry. -/
inductive PlaceOrderResult where
  | toast (message : String)
  | thrown (message : String)
  | requestSent (request : WireRequest)

/-- `placeOrder` (binanceService.ts:871-973).  `hmac`, `enc` and `ratToStr`
model HMAC-SHA256, form encoding and JavaScript number rendering.  Returns the
new state, the outcome, and the frames written to the socket. -/
def placeOrder (hmac : String → String → String) (enc : String → String)
    (ratToStr : ℚ → String) (st : TradingState) (params : OrderParams)
    (requestId timestamp : String) :
    TradingState × PlaceOrderResult × List WireRequest :=
  if hasCredentials st = false then
    (st, PlaceOrderResult.toast "Please configure your API credentials in settings", [])
  else if st.wsOpen = false then
    (st, PlaceOrderResult.toast "WebSocket connection failed. Please try again.", [])
  else
    match st.marketPrices.lookup params.symbol with
    | none => (st, PlaceOrderResult.toast "Failed to get market price. Please try again.", [])
    | some currentPrice =>
      if currentPrice = 0 then
        (st, PlaceOrderResult.toast "Failed to get market price. Please try again.", [])
      else if (st.symbolInfo.lookup params.symbol).isNone then
        (st, PlaceOrderResult.toast "Failed to get symbol information. Please try again.", [])
      else
        let notionalValue := parseNotionalValue params.leverage
        let quantity := notionalValue / currentPrice
        let adjustedQuantity := adjustQuantityPrecision st.symbolInfo params.symbol quantity
        if validateNotionalValue st.symbolInfo params.symbol adjustedQuantity currentPrice
            = false then
          (st, PlaceOrderResult.thrown "Order size is too small. Please increase the amount.", [])
        else
          let positionSide :=
            if params.positionMode = "one-way" then "BOTH"
            else if params.side = "BUY" then "LONG" else "SHORT"
          let baseList :=
            [("apiKey", st.apiKey), ("symbol", params.symbol), ("side", params.side),
             ("type", params.type), ("quantity", ratToStr adjustedQuantity),
             ("positionSide", positionSide), ("timestamp", timestamp),
             ("recvWindow", websocketSettings.recvWindow)]
          let baseList :=
            if params.type = "LIMIT" then
              baseList ++ [("timeInForce", "GTC"),
                ("price", ratToStr (adjustPricePrecision st.symbolInfo params.symbol
                  ((params.price).getD 0)))]
            else baseList
          let req : WireRequest :=
            ⟨requestId, methodOrderPlace, withSignature hmac enc st.apiSecret (jsObjectOf baseList)⟩
          let st1 := {st with messageHandlers := st.messageHandlers ++ [requestId]}
          if st1.wsOpen then (st1, PlaceOrderResult.requestSent req, [req])
          else (st1, PlaceOrderResult.thrown "WebSocket is not connected", [])

/-! ### closeAllPositions (binanceService.ts:1180-1257) -/

/-- Outcome of `closeAllPositions`. -/
inductive CloseAllResult where
  | credentialToast
  | alreadyInProgress
  | noPositionsToast
  | inFlight (requests : List WireRequest)

/-- The per-position close order built inside `closeAllPositions`
(binanceService.ts:1201-1232): market order on the opposite side for the full
absolute size, legalized. -/
def closeOrderRequest (hmac : String → String → String) (enc : String → String)
    (ratToStr : ℚ → String) (st : TradingState) (position : Position)
    (requestId timestamp : String) : WireRequest :=
  let side := if position.type = PositionType.long then "SELL" else "BUY"
  let quantity := adjustQuantityPrecision st.symbolInfo position.symbol |position.size|
  let baseList :=
    [("apiKey", st.apiKey), ("symbol", position.symbol), ("side", side),
     ("type", "MARKET"), ("quantity", ratToStr quantity),
     ("positionSide", if position.type = PositionType.long then "LONG" else "SHORT"),
     ("timestamp", timestamp), ("recvWindow", websocketSettings.recvWindow)]
  ⟨requestId, methodOrderPlace, withSignature hmac enc st.apiSecret (jsObjectOf baseList)⟩

/-- The synchronous phase of `closeAllPositions` (binanceService.ts:1180-1251):
credential check, reentrancy guard, guard set, empty-map early return (through
`finally`), and the concurrent dispatch of one close request per open
position.  `idGen` supplies the per-request uuid.  Returns the new state, the
outcome, and the frames written to the socket. -/
def closeAllPositionsStart (hmac : String → String → String) (enc : String → String)
    (ratToStr : ℚ → String) (st : TradingState) (idGen : ℕ → String) (timestamp : String) :
    TradingState × CloseAllResult × List WireRequest :=
  if hasCredentials st = false then (st, CloseAllResult.credentialToast, [])
  else if st.isClosingAllPositions then (st, CloseAllResult.alreadyInProgress, [])
  else
    let st1 := {st with isClosingAllPositions := true}
    let positions := st1.positionMap.map (fun kv => kv.2)
    if positions.isEmpty then
      ({st1 with isClosingAllPositions := false}, CloseAllResult.noPositionsToast, [])
    else
      let reqs := positions.enum.map
        (fun np => closeOrderRequest hmac enc ratToStr st1 np.2 (idGen np.1) timestamp)
      let st2 := {st1 with messageHandlers := st1.messageHandlers ++ reqs.map (fun r => r.id)}
      (st2, CloseAllResult.inFlight reqs, if st2.wsOpen then reqs else [])

/-- The `finally` block of `closeAllPositions` (binanceService.ts:1254-1256),
run when the in-flight call settles, successfully or not. -/
def closeAllPositionsFinish (st : TradingState) : TradingState :=
  {st with isClosingAllPositions := false}

/-! ### News cache pagination (newsService.ts:251-344) -/

/-- A cached news item; of the `NewsItem` fields, pagination reads only the
timestamp (id keys the cache, title is carried as representative payload). -/
structure NewsItemM where
  id : String
  title : String
  timestamp : ℤ
deriving DecidableEq

/-- The news service state relevant to paging: the id-keyed cache and the
1-based current page. -/
structure NewsState where
  newsCache : List (String × NewsItemM)
  currentPage : ℕ
deriving DecidableEq

/-- `itemsPerPage` (newsService.ts:126). -/
def itemsPerPage : ℕ := 20

/-- The sort in `notifyHandlers` (newsService.ts:252-253):
`(a, b) => b.timestamp - a.timestamp`, a stable descending sort. -/
def sortNewsDesc (l : List NewsItemM) : List NewsItemM :=
  List.insertionSort (fun a b => b.timestamp ≤ a.timestamp) l

/-- The page slice computed by `notifyHandlers` (newsService.ts:251-257) for a
given current page. -/
def pageNews (cache : List (String × NewsItemM)) (page : ℕ) : List NewsItemM :=
  ((sortNewsDesc (cache.map (fun kv => kv.2))).drop ((page - 1) * itemsPerPage)).take
    itemsPerPage

/-- `getTotalPages` (newsService.ts:337-340): `Math.ceil(size / itemsPerPage)`. -/
def getTotalPages (st : NewsState) : ℕ :=
  (st.newsCache.length + itemsPerPage - 1) / itemsPerPage

/-- `setPage` (newsService.ts:325-331): accept the page and notify only when
it lies in `[1, totalPages]`; otherwise the request is ignored.  The boolean
reports whether handlers were notified. -/
def setPage (page : ℕ) (st : NewsState) : NewsState × Bool :=
  if 0 < page ∧ page ≤ getTotalPages st then ({st with currentPage := page}, true)
  else (st, false)

/-! ### News worker reconnection (news.worker.ts:157-173 and 42-47, 113-154) -/

/-- JavaScript `v || d` on numbers: the default replaces a falsy (0) value. -/
def jsOrDefault (v d : ℚ) : ℚ := if v = 0 then d else v

/-- `calculateReconnectDelay` of the news worker (news.worker.ts:157-173).
`rand` is the `Math.random()` sample in `[0,1)`; jitter is added only on the
backoff branch. -/
def workerReconnectDelay (s : WsSettings) (retryCount : ℕ) (rand : ℚ) : ℚ :=
  let baseDelay := jsOrDefault s.reconnectDelay 1000
  let maxDelay := jsOrDefault s.maxReconnectDelay 15000
  if s.exponentialBackoff then
    min (baseDelay * 2 ^ (retryCount - 1)) maxDelay + rand * 500
  else baseDelay

/-- `ws.onopen` (news.worker.ts:42-48) resets `retryCount` to 0. -/
def workerOnOpen (_retryCount : ℕ) : ℕ := 0

/-- The retry bookkeeping of `handleDisconnect` (news.worker.ts:146-150):
increment `retryCount`, then compute the delay for the scheduled reconnect. -/
def workerHandleFail (s : WsSettings) (retryCount : ℕ) (rand : ℚ) : ℕ × ℚ :=
  (retryCount + 1, workerReconnectDelay s (retryCount + 1) rand)

/-! ### Claim-level specification predicates -/

/-- C7's claimed contract for quantity legalization at a cached rule `f`:
the legalized output is a non-negative multiple of `stepSize` inside
`[minQty, maxQty]` within one step of the clamped input. -/
def c7ClaimHolds (symbolInfo : List (String × SymbolInfo)) (symbol : String)
    (f : LotSizeFilter) (q : ℚ) : Prop :=
  0 ≤ adjustQuantityPrecision symbolInfo symbol q
  ∧ (∃ m : ℤ, adjustQuantityPrecision symbolInfo symbol q = (m : ℚ) * f.stepSize)
  ∧ f.minQty ≤ adjustQuantityPrecision symbolInfo symbol q
  ∧ adjustQuantityPrecision symbolInfo symbol q ≤ f.maxQty
  ∧ |adjustQuantityPrecision symbolInfo symbol q - max f.minQty (min f.maxQty q)| < f.stepSize

/-- What a successful `fetchPositions` refresh actually does to the position
map: it resolves with the transformed nonzero snapshot, upserts every snapshot
position by id, retains every pre-existing key, and adds nothing else. -/
def c3MergeSpec (st : TradingState) (resp : WireResponse) : Prop :=
  (fetchPositionsHandleResponse st resp).2
      = Except.ok (((resp.result.getD []).filter (fun p => p.positionAmt ≠ 0)).map
          transformPosition)
  ∧ (∀ k, k ∈ st.positionMap.map (fun kv => kv.1) →
      k ∈ (fetchPositionsHandleResponse st resp).1.positionMap.map (fun kv => kv.1))
  ∧ (∀ p, p ∈ ((resp.result.getD []).filter (fun q => q.positionAmt ≠ 0)).map
        transformPosition →
      p.id ∈ (fetchPositionsHandleResponse st resp).1.positionMap.map (fun kv => kv.1))
  ∧ (∀ kv, kv ∈ (fetchPositionsHandleResponse st resp).1.positionMap →
      kv ∈ st.positionMap
        ∨ kv.2 ∈ ((resp.result.getD []).filter (fun q => q.positionAmt ≠ 0)).map
            transformPosition)

/-- C6's contract for `closeAllPositions` from an idle, credentialed state:
empty map is a notification no-op with the guard released; otherwise one close
request per open position goes out, the guard is held, a concurrent second
call no-ops with `AlreadyInProgress` and sends nothing, and the `finally`
clears the guard however the call settles. -/
def closeAllSpec (hmac : String → String → String) (enc : String → String)
    (ratToStr : ℚ → String) (st : TradingState) (idGen : ℕ → String)
    (timestamp : String) : Prop :=
  (st.positionMap = [] →
    closeAllPositionsStart hmac enc ratToStr st idGen timestamp
      = ({st with isClosingAllPositions := false}, CloseAllResult.noPositionsToast, []))
  ∧ (st.positionMap ≠ [] →
      (∃ reqs : List WireRequest,
        (closeAllPositionsStart hmac enc ratToStr st idGen timestamp).2.1
            = CloseAllResult.inFlight reqs
        ∧ reqs.length = st.positionMap.length
        ∧ (closeAllPositionsStart hmac enc ratToStr st idGen timestamp).2.2
            = (if st.wsOpen then reqs else []))
      ∧ (closeAllPositionsStart hmac enc ratToStr st idGen timestamp).1.isClosingAllPositions
          = true
      ∧ closeAllPositionsStart hmac enc ratToStr
            (closeAllPositionsStart hmac enc ratToStr st idGen timestamp).1 idGen timestamp
          = ((closeAllPositionsStart hmac enc ratToStr st idGen timestamp).1,
             CloseAllResult.alreadyInProgress, []))
  ∧ (∀ s : TradingState, (closeAllPositionsFinish s).isClosingAllPositions = false)

/-- C9's amended contract for the news worker reconnect delay: the capped
exponential formula with jitter holds exactly when `exponentialBackoff` is
enabled and is then non-decreasing in the attempt number; with the
repository's settings the delay is the constant `reconnectDelay`; a success
resets the retry counter so the next failure is attempt 1. -/
def c9Spec (s : WsSettings) (n : ℕ) (r : ℚ) : Prop :=
  workerReconnectDelay s n r
      = min (jsOrDefault s.reconnectDelay 1000 * 2 ^ (n - 1))
          (jsOrDefault s.maxReconnectDelay 15000) + r * 500
  ∧ workerReconnectDelay s n r ≤ workerReconnectDelay s (n + 1) r
  ∧ (∀ m rr, workerReconnectDelay websocketSettings m rr = websocketSettings.reconnectDelay)
  ∧ workerHandleFail s (workerOnOpen n) r
      = (1, min (jsOrDefault s.reconnectDelay 1000) (jsOrDefault s.maxReconnectDelay 15000)
            + r * 500)

/-- C8's amended contract for news pagination: page `k` holds
`min(P, N - (k-1)*P)` items in non-increasing timestamp order (strictly
decreasing when all cached timestamps are distinct), and an out-of-range page
request is ignored — the current page is left unchanged — while an in-range
request is adopted and triggers notification. -/
def c8Spec (cache : List (String × NewsItemM)) (k : ℕ) (st : NewsState) (p : ℕ) : Prop :=
  (pageNews cache k).length = min itemsPerPage (cache.length - (k - 1) * itemsPerPage)
  ∧ (pageNews cache k).Pairwise (fun a b => b.timestamp ≤ a.timestamp)
  ∧ ((cache.map (fun kv => kv.2.timestamp)).Nodup →
      (pageNews cache k).Pairwise (fun a b => b.timestamp < a.timestamp))
  ∧ (¬ (0 < p ∧ p ≤ getTotalPages st) → setPage p st = (st, false))
  ∧ (0 < p → p ≤ getTotalPages st → setPage p st = ({st with currentPage := p}, true))

/-- C10's contract for `setStatus`: a call with the current value emits
nothing, every emission accompanies a real transition to the emitted value,
and with empty credentials no call sequence ever emits or reaches
`disconnected` (unless it started there). -/
def c10Spec (st : TradingState) (s : ConnStatus) (statuses : List ConnStatus) : Prop :=
  (st.currentStatus = s → setStatus s st = (st, []))
  ∧ (∀ st' : TradingState, (setStatus s st').2 ≠ [] →
      s ≠ st'.currentStatus ∧ (setStatus s st').1.currentStatus = s
        ∧ (setStatus s st').2 = [s])
  ∧ ConnStatus.disconnected ∉ (runSetStatuses st statuses).2
  ∧ ((runSetStatuses st statuses).1.currentStatus = ConnStatus.disconnected →
      st.currentStatus = ConnStatus.disconnected)

/-! ### Concrete sample states -/

/-- A credentialed, connected session with empty caches. -/
def sampleBaseState : TradingState :=
  { apiKey := "test-key"
    apiSecret := "test-secret"
    wsOpen := true
    messageHandlers := []
    positionMap := []
    marginTypeMap := []
    marketPrices := []
    symbolInfo := []
    isReconnecting := false
    reconnectTimeout := none
    retryCount := 0
    heartbeatOn := true
    lastHeartbeat := 0
    currentStatus := ConnStatus.connected
    isClosingAllPositions := false }

/-- A session with one pending correlated request. -/
def c1State : TradingState := {sampleBaseState with messageHandlers := ["req-1"]}

/-- A raw long position of one contract on OLDUSDT. -/
def c3StaleRaw : RawPosition :=
  { symbol := "OLDUSDT", positionSide := "BOTH", positionAmt := 1, entryPrice := 100
    markPrice := 100, unRealizedProfit := 0, initialMargin := 10
    positionInitialMargin := 10, notional := 100, liquidationPrice := 50
    breakEvenPrice := 100, isolated := false }

/-- The stale cached position used for the C3 counterexample. -/
def c3StalePosition : Position := transformPosition c3StaleRaw

/-- A session whose position map holds one position that the next snapshot
no longer reports. -/
def c3State : TradingState :=
  {sampleBaseState with positionMap := [(c3StalePosition.id, c3StalePosition)]}

/-- A 200 position response with an empty snapshot. -/
def c3Response : WireResponse := { id := "fp-1", status := 200, method := none, result := some [] }

/-- A raw snapshot entry of size zero (flat). -/
def c4ZeroRaw : RawPosition :=
  { symbol := "ETHUSDT", positionSide := "BOTH", positionAmt := 0, entryPrice := 0
    markPrice := 0, unRealizedProfit := 0, initialMargin := 0
    positionInitialMargin := 0, notional := 0, liquidationPrice := 0
    breakEvenPrice := 0, isolated := false }

/-- A raw snapshot entry with nonzero size. -/
def c4LiveRaw : RawPosition :=
  { symbol := "BTCUSDT", positionSide := "BOTH", positionAmt := 2, entryPrice := 50000
    markPrice := 50100, unRealizedProfit := 200, initialMargin := 1000
    positionInitialMargin := 1000, notional := 100200, liquidationPrice := 40000
    breakEvenPrice := 50000, isolated := true }

/-- Order parameters for a market buy sized from a "1K" notional. -/
def c5Params : OrderParams :=
  { symbol := "BTCUSDT", side := "BUY", positionMode := "one-way", type := "MARKET"
    leverage := "1K", price := none }

/-- The open position used to exercise `closeAllPositions`. -/
def c6Position : Position :=
  transformPosition
    { symbol := "BTCUSDT", positionSide := "LONG", positionAmt := 1/2, entryPrice := 50000
      markPrice := 50100, unRealizedProfit := 50, initialMargin := 250
      positionInitialMargin := 250, notional := 25050, liquidationPrice := 40000
      breakEvenPrice := 49900, isolated := false }

/-- A credentialed idle session with one open position. -/
def c6State : TradingState :=
  {sampleBaseState with positionMap := [(c6Position.id, c6Position)]}

/-- A cached rule whose `minQty` (0.0015) is not a multiple of the step
(0.001) — exactly the shape on which floor-to-step undershoots the clamp. -/
def c7BadInfo : SymbolInfo :=
  { pricePrecision := 2, quantityPrecision := 3
    lotSize := some { minQty := 3/2000, maxQty := 1000, stepSize := 1/1000 }
    priceFilter := none, minNotional := none }

/-- Rule cache holding the counterexample rule. -/
def c7BadSymbolInfo : List (String × SymbolInfo) := [("FOOUSDT", c7BadInfo)]

/-- The spec scenario rule: stepSize 0.001, minQty 0.001, maxQty 1000. -/
def c7ScenarioRule : LotSizeFilter := { minQty := 1/1000, maxQty := 1000, stepSize := 1/1000 }

/-- Symbol info carrying the scenario rule. -/
def c7ScenarioInfo : SymbolInfo :=
  { pricePrecision := 2, quantityPrecision := 3, lotSize := some c7ScenarioRule
    priceFilter := none, minNotional := none }

/-- Rule cache holding the scenario rule. -/
def c7ScenarioSymbolInfo : List (String × SymbolInfo) := [("BTCUSDT", c7ScenarioInfo)]

/-- A news cache of 25 items with distinct ids and ascending timestamps. -/
def c8Cache : List (String × NewsItemM) :=
  (List.range 25).map (fun i => (toString i, { id := toString i, title := "headline", timestamp := (i : ℤ) }))

/-- News state on page 1 over the 25-item cache (two pages at size 20). -/
def c8State : NewsState := { newsCache := c8Cache, currentPage := 1 }

/-- The repository settings with the backoff switch enabled, for the C9
witness. -/
def c9Settings : WsSettings :=
  { reconnectDelay := 1000, recvWindow := "5000", heartbeatInterval := 1000
    heartbeatTimeout := 5000, exponentialBackoff := true, maxReconnectDelay := 15000 }

/-- A session with an empty API key (no credentials). -/
def c10State : TradingState := {sampleBaseState with apiKey := ""}

/-! ### Helper lemmas -/

theorem char_eq_of_toNat_eq {a b : Char} (h : a.toNat = b.toNat) : a = b := by
  have hv : a.val = b.val := by
    apply UInt32.ext
    exact_mod_cast h
  exact Char.ext hv

theorem string_eq_of_data_eq {a b : String} (h : a.data = b.data) : a = b := by
  cases a
  cases b
  simp_all

theorem charListLe_total (as bs : List Char) :
    charListLe as bs = true ∨ charListLe bs as = true := by
  induction as generalizing bs with
  | nil => left; simp [charListLe]
  | cons a as ih =>
    cases bs with
    | nil => right; simp [charListLe]
    | cons b bs =>
      rcases Nat.lt_trichotomy a.toNat b.toNat with h | h | h
      · left; simp [charListLe, h]
      · have h1 : ¬ a.toNat < b.toNat := by omega
        have h2 : ¬ b.toNat < a.toNat := by omega
        rcases ih bs with h3 | h3
        · left; simp [charListLe, h1, h2, h3]
        · right; simp [charListLe, h1, h2, h3]
      · right; simp [charListLe, h]

theorem charListLe_trans (as bs cs : List Char) (h1 : charListLe as bs = true)
    (h2 : charListLe bs cs = true) : charListLe as cs = true := by
  induction as generalizing bs cs with
  | nil => simp [charListLe]
  | cons a as ih =>
    cases bs with
    | nil => simp [charListLe] at h1
    | cons b bs =>
      cases cs with
      | nil => simp [charListLe] at h2
      | cons c cs =>
        simp only [charListLe] at h1 h2 ⊢
        by_cases hab : a.toNat < b.toNat
        · by_cases hbc : b.toNat < c.toNat
          · simp [show a.toNat < c.toNat by omega]
          · simp only [if_pos hab] at h1
            by_cases hcb : c.toNat < b.toNat
            · simp [hcb] at h2
              exact absurd h2 hbc
            · have hbc' : b.toNat = c.toNat := by omega
              simp [show a.toNat < c.toNat by omega]
        · by_cases hba : b.toNat < a.toNat
          · simp [hab, hba] at h1
          · have hab' : a.toNat = b.toNat := by omega
            simp only [if_neg hab, if_neg hba] at h1
            by_cases hbc : b.toNat < c.toNat
            · simp [show a.toNat < c.toNat by omega]
            · by_cases hcb : c.toNat < b.toNat
              · simp [hcb] at h2
                exact absurd h2 hbc
              · have hbc' : b.toNat = c.toNat := by omega
                have hac1 : ¬ a.toNat < c.toNat := by omega
                have hac2 : ¬ c.toNat < a.toNat := by omega
                simp only [if_neg hac1, if_neg hac2]
                simp only [if_neg hbc, if_neg hcb] at h2
                exact ih bs cs h1 h2

theorem charListLe_antisymm (as bs : List Char) (h1 : charListLe as bs = true)
    (h2 : charListLe bs as = true) : as = bs := by
  induction as generalizing bs with
  | nil =>
    cases bs with
    | nil => rfl
    | cons b bs => simp [charListLe] at h2
  | cons a as ih =>
    cases bs with
    | nil => simp [charListLe] at h1
    | cons b bs =>
      simp only [charListLe] at h1 h2
      by_cases hab : a.toNat < b.toNat
      · simp [show ¬ b.toNat < a.toNat by omega, hab] at h2
      · by_cases hba : b.toNat < a.toNat
        · simp [hab, hba] at h1
        · have he : a.toNat = b.toNat := by omega
          simp only [if_neg hab, if_neg hba] at h1 h2
          rw [char_eq_of_toNat_eq he, ih bs h1 h2]

theorem sortKeys_perm (ks : List String) : List.Perm (sortKeys ks) ks :=
  List.perm_insertionSort _ ks

theorem sortKeys_sorted (ks : List String) :
    (sortKeys ks).Sorted (fun a b => strLe a b = true) := by
  haveI : IsTotal String (fun a b => strLe a b = true) :=
    ⟨fun a b => charListLe_total a.data b.data⟩
  haveI : IsTrans String (fun a b => strLe a b = true) :=
    ⟨fun a b c h1 h2 => charListLe_trans a.data b.data c.data h1 h2⟩
  exact List.sorted_insertionSort _ ks

theorem sortKeys_eq_of_perm {ks₁ ks₂ : List String} (h : List.Perm ks₁ ks₂) :
    sortKeys ks₁ = sortKeys ks₂ := by
  haveI : IsAntisymm String (fun a b => strLe a b = true) :=
    ⟨fun a b h1 h2 => string_eq_of_data_eq (charListLe_antisymm a.data b.data h1 h2)⟩
  exact List.eq_of_perm_of_sorted
    ((sortKeys_perm ks₁).trans (h.trans (sortKeys_perm ks₂).symm))
    (sortKeys_sorted ks₁) (sortKeys_sorted ks₂)

theorem mem_of_mem_mapSet {α : Type} {m : List (String × α)} {k : String} {v : α}
    {kv : String × α} (h : kv ∈ mapSet m k v) : kv ∈ m ∨ kv = (k, v) := by
  unfold mapSet at h
  by_cases hc : m.any (fun kv => kv.1 == k) = true
  · rw [if_pos hc] at h
    obtain ⟨kv₀, hkv₀, heq⟩ := List.mem_map.mp h
    by_cases h1 : kv₀.1 = k
    · right; rw [← heq, if_pos h1]
    · left; rw [← heq, if_neg h1]; exact hkv₀
  · rw [if_neg hc] at h
    rcases List.mem_append.mp h with h | h
    · left; exact h
    · right; exact List.mem_singleton.mp h

theorem key_mem_mapSet {α : Type} {m : List (String × α)} {k : String} {v : α}
    {k' : String} (h : k' ∈ m.map (fun kv => kv.1)) :
    k' ∈ (mapSet m k v).map (fun kv => kv.1) := by
  unfold mapSet
  obtain ⟨kv₀, hkv₀, heq⟩ := List.mem_map.mp h
  by_cases hc : m.any (fun kv => kv.1 == k) = true
  · rw [if_pos hc]
    refine List.mem_map.mpr ⟨if kv₀.1 = k then (k, v) else kv₀, List.mem_map.mpr ⟨kv₀, hkv₀, rfl⟩, ?_⟩
    by_cases h1 : kv₀.1 = k
    · rw [if_pos h1]; rw [← heq, h1]
    · rw [if_neg h1]; exact heq
  · rw [if_neg hc]
    rw [List.map_append]
    exact List.mem_append.mpr (Or.inl h)

theorem self_key_mem_mapSet {α : Type} (m : List (String × α)) (k : String) (v : α) :
    k ∈ (mapSet m k v).map (fun kv => kv.1) := by
  unfold mapSet
  by_cases hc : m.any (fun kv => kv.1 == k) = true
  · rw [if_pos hc]
    obtain ⟨kv₀, hkv₀, hbeq⟩ := List.any_eq_true.mp hc
    have h1 : kv₀.1 = k := eq_of_beq hbeq
    exact List.mem_map.mpr ⟨(k, v), List.mem_map.mpr ⟨kv₀, hkv₀, by rw [if_pos h1]⟩, rfl⟩
  · rw [if_neg hc, List.map_append]
    exact List.mem_append.mpr (Or.inr (by simp))

theorem foldl_mapSet_elem {α : Type} (key : α → String) (ps : List α)
    (m : List (String × α)) (kv : String × α)
    (h : kv ∈ ps.foldl (fun acc p => mapSet acc (key p) p) m) : kv ∈ m ∨ kv.2 ∈ ps := by
  induction ps generalizing m with
  | nil => left; exact h
  | cons p ps ih =>
    simp only [List.foldl_cons] at h
    rcases ih (mapSet m (key p) p) h with h' | h'
    · rcases mem_of_mem_mapSet h' with h'' | h''
      · left; exact h''
      · right; rw [h'']; exact List.mem_cons_self p ps
    · right; exact List.mem_cons_of_mem p h'

theorem foldl_mapSet_keys_mono {α : Type} (key : α → String) (ps : List α)
    (m : List (String × α)) (k' : String) (h : k' ∈ m.map (fun kv => kv.1)) :
    k' ∈ (ps.foldl (fun acc p => mapSet acc (key p) p) m).map (fun kv => kv.1) := by
  induction ps generalizing m with
  | nil => exact h
  | cons p ps ih =>
    simp only [List.foldl_cons]
    exact ih (mapSet m (key p) p) (key_mem_mapSet h)

theorem foldl_mapSet_key_of_mem {α : Type} (key : α → String) (ps : List α)
    (m : List (String × α)) (p : α) (hp : p ∈ ps) :
    key p ∈ (ps.foldl (fun acc x => mapSet acc (key x) x) m).map (fun kv => kv.1) := by
  induction ps generalizing m with
  | nil => cases hp
  | cons q ps ih =>
    simp only [List.foldl_cons]
    rcases List.mem_cons.mp hp with h | h
    · subst h
      exact foldl_mapSet_keys_mono key ps _ _ (self_key_mem_mapSet m (key p) p)
    · exact ih _ h

theorem stepPrecision_pow10 (k : ℕ) (hk : k ≤ 30) : stepPrecision (1 / 10 ^ k) = k := by
  unfold stepPrecision
  apply Nat.findGreatest_eq_iff.mpr
  refine ⟨hk, fun _ => ?_, ?_⟩
  · rw [one_div_mul_cancel (by positivity : ((10:ℚ) ^ k) ≠ 0)]
  · intro n hlt hle hP
    have hsplit : (10:ℚ) ^ n = 10 ^ k * 10 ^ (n - k) := by
      rw [← pow_add]
      congr 1
      omega
    rw [hsplit] at hP
    have hred : (1:ℚ) / 10 ^ k * (10 ^ k * 10 ^ (n - k)) = 10 ^ (n - k) := by
      field_simp
    rw [hred] at hP
    have hgt : (1:ℚ) < 10 ^ (n - k) :=
      one_lt_pow₀ (by norm_num) (by omega)
    linarith

theorem toFixedRound_int_div (p : ℕ) (m : ℤ) :
    toFixedRound p ((m : ℚ) / 10 ^ p) = (m : ℚ) / 10 ^ p := by
  unfold toFixedRound
  rw [div_mul_cancel₀ _ (by positivity : ((10:ℚ) ^ p) ≠ 0), round_intCast]

/-! ### C1 — teardown versus pending requests -/

/-- C1 counterexample: with one request pending ("req-1"), tearing the channel
down via `handleDisconnect` neither removes the pending entry from the
correlation map nor delivers any rejection — refuting the claim that a pending
promise is removed and rejected with NetworkError on teardown. -/
theorem c1_counterexample :
    ¬ (("req-1" ∉ (handleDisconnect c1State).1.messageHandlers)
        ∧ (handleDisconnect c1State).2 ≠ ([] : List (String × String))) := by
  intro h
  exact h.1 (by simp [handleDisconnect, c1State, sampleBaseState])

/-- C1 amended: `handleDisconnect` leaves the correlation map untouched and
issues no rejections, so a request pending at teardown stays pending — it is
removed only when a response bearing its id is dispatched by the socket's
message handler. -/
theorem c1_teardown_keeps_pending (st : TradingState) (resp : WireResponse) (now : ℚ) :
    (handleDisconnect st).1.messageHandlers = st.messageHandlers
    ∧ (handleDisconnect st).2 = []
    ∧ resp.id ∉ (wsOnMessage st resp now).1.messageHandlers := by
  refine ⟨rfl, rfl, ?_⟩
  by_cases h : resp.id ∈ st.messageHandlers
  · simp [wsOnMessage, h, List.mem_filter]
  · simp [wsOnMessage, h]

/-! ### C2 — signing order -/

/-- C2 counterexample: `updateMarginType` signs `params.toString()` — the
insertion-order serialization symbol, marginType, timestamp, recvWindow —
which differs from the lexicographically sorted serialization that
`createSignature` would produce for the same parameter set, already at the
identity encoding. -/
theorem c2_counterexample :
    urlParamsToString id (updateMarginTypeParams "BTCUSDT" "ISOLATED" "1700000000000")
      ≠ createSignatureQuery id
          (jsObjectOf (updateMarginTypeParams "BTCUSDT" "ISOLATED" "1700000000000")) := by
  decide

/-- C2 amended: WebSocket signed calls (`createSignature`) hash the
lexicographically sorted serialization — so permuting parameter insertion
order never changes the signature — and append the signature last; the REST
calls `updateMarginType`/`updateLeverage` also append the signature last but
hash the fixed insertion-order serialization instead of the sorted one. -/
theorem c2_sorted_signing (hmac : String → String → String) (enc : String → String)
    (secret : String) (o₁ o₂ : JsObject) (hget : o₁.get = o₂.get)
    (hperm : List.Perm o₁.keys o₂.keys)
    (symbol marginType leverage timestamp : String) :
    createSignature hmac enc secret o₁ = createSignature hmac enc secret o₂
    ∧ (withSignature hmac enc secret o₁).keys.getLast? = some "signature"
    ∧ ((updateMarginTypeSignedBody hmac enc secret symbol marginType timestamp).map
         (fun kv => kv.1)).getLast? = some "signature"
    ∧ ((updateLeverageSignedBody hmac enc secret symbol leverage timestamp).map
         (fun kv => kv.1)).getLast? = some "signature"
    ∧ updateMarginTypeSignedBody hmac enc secret symbol marginType timestamp
        = updateMarginTypeParams symbol marginType timestamp
            ++ [("signature",
                 hmac (urlParamsToString enc (updateMarginTypeParams symbol marginType timestamp))
                   secret)] := by
  refine ⟨?_, ?_, ?_, ?_, rfl⟩
  · unfold createSignature createSignatureQuery
    rw [hget, sortKeys_eq_of_perm hperm]
  · simp [withSignature]
  · simp [updateMarginTypeSignedBody, updateMarginTypeParams]
  · simp [updateLeverageSignedBody, updateLeverageParams]

/-- C2 witness: two insertion orders of the same two-parameter object yield
the same signature. -/
theorem c2_witness :
    createSignature (fun q s => q ++ "#" ++ s) id "secret"
        ⟨["b", "a"], fun k => if k = "a" then "1" else if k = "b" then "2" else ""⟩
      = createSignature (fun q s => q ++ "#" ++ s) id "secret"
        ⟨["a", "b"], fun k => if k = "a" then "1" else if k = "b" then "2" else ""⟩ :=
  (c2_sorted_signing (fun q s => q ++ "#" ++ s) id "secret"
    ⟨["b", "a"], fun k => if k = "a" then "1" else if k = "b" then "2" else ""⟩
    ⟨["a", "b"], fun k => if k = "a" then "1" else if k = "b" then "2" else ""⟩
    rfl (List.Perm.swap "a" "b" []) "BTCUSDT" "ISOLATED" "20" "1700000000000").1

/-! ### C3 — position refresh is a merge, not a wholesale replacement -/

/-- C3 counterexample: a cached position absent from the next successful
snapshot stays in the map — after processing a 200 response with an empty
snapshot, the position map is not empty, refuting "contains exactly the
nonzero-size positions of that response". -/
theorem c3_counterexample :
    ¬ ((fetchPositionsHandleResponse c3State c3Response).1.positionMap = []) := by
  have h : (fetchPositionsHandleResponse c3State c3Response).1.positionMap
      = c3State.positionMap := by
    simp [fetchPositionsHandleResponse, c3Response, transformPositions]
  rw [h]
  simp [c3State, sampleBaseState]

/-- C3 amended: a successful `fetchPositions` refresh upserts the snapshot's
nonzero positions by id into the position map and retains every pre-existing
entry's key; nothing is deleted, so stale positions survive the refresh. -/
theorem c3_refresh_merges (st : TradingState) (resp : WireResponse)
    (h200 : resp.status = 200) : c3MergeSpec st resp := by
  have hfetch : fetchPositionsHandleResponse st resp
      = ({st with
            positionMap := (transformPositions st.positionMap st.marginTypeMap
              (resp.result.getD [])).1
            marginTypeMap := (transformPositions st.positionMap st.marginTypeMap
              (resp.result.getD [])).2.1},
         Except.ok (transformPositions st.positionMap st.marginTypeMap
              (resp.result.getD [])).2.2) := by
    simp [fetchPositionsHandleResponse, h200]
  unfold c3MergeSpec
  rw [hfetch]
  refine ⟨rfl, ?_, ?_, ?_⟩
  · intro k hk
    exact foldl_mapSet_keys_mono Position.id _ st.positionMap k hk
  · intro p hp
    exact foldl_mapSet_key_of_mem Position.id _ st.positionMap p hp
  · intro kv hkv
    exact foldl_mapSet_elem Position.id _ st.positionMap kv hkv

/-- C3 witness: the amended statement at the concrete stale-entry state and
the empty 200 snapshot. -/
theorem c3_witness : c3Response.status = 200 ∧ c3MergeSpec c3State c3Response :=
  ⟨rfl, c3_refresh_merges c3State c3Response rfl⟩

/-! ### C4 — the position map never holds a flat position -/

/-- C4: entries whose position amount parses to zero are filtered out of every
snapshot before transformation, and updating the map with a transformed
snapshot preserves the invariant that every stored position has nonzero
size. -/
theorem c4_no_flat_positions (posMap : List (String × Position))
    (marginMap : List (String × MarginType)) (raw : List RawPosition)
    (hinv : ∀ kv ∈ posMap, kv.2.size ≠ 0) :
    (∀ p ∈ (transformPositions posMap marginMap raw).2.2, p.size ≠ 0)
    ∧ (∀ kv ∈ (transformPositions posMap marginMap raw).1, kv.2.size ≠ 0) := by
  have hlist : ∀ p ∈ (raw.filter (fun p => p.positionAmt ≠ 0)).map transformPosition,
      p.size ≠ 0 := by
    intro p hp
    obtain ⟨rp, hrp, heq⟩ := List.mem_map.mp hp
    have hne : rp.positionAmt ≠ 0 := by
      have := (List.mem_filter.mp hrp).2
      simpa using this
    rw [← heq]
    exact hne
  refine ⟨fun p hp => hlist p ?_, fun kv hkv => ?_⟩
  · simpa [transformPositions] using hp
  · simp only [transformPositions] at hkv
    rcases foldl_mapSet_elem Position.id _ posMap kv hkv with h | h
    · exact hinv kv h
    · exact hlist kv.2 h

/-- C4 witness: an empty map satisfies the invariant, and feeding a snapshot
with one flat and one live entry keeps it. -/
theorem c4_witness :
    (∀ kv ∈ ([] : List (String × Position)), kv.2.size ≠ 0)
    ∧ ((∀ p ∈ (transformPositions [] [] [c4ZeroRaw, c4LiveRaw]).2.2, p.size ≠ 0)
       ∧ (∀ kv ∈ (transformPositions [] [] [c4ZeroRaw, c4LiveRaw]).1, kv.2.size ≠ 0)) :=
  ⟨by simp, c4_no_flat_positions [] [] [c4ZeroRaw, c4LiveRaw] (by simp)⟩

/-! ### C5 — placeOrder with no cached price -/

/-- C5 counterexample: with credentials configured, the channel open and no
cached price, `placeOrder` does not reject — it surfaces a toast and the
returned promise resolves void — refuting "rejects with NoPriceData" (the
zero-wire-sends half of the claim does hold; see the amended theorem). -/
theorem c5_counterexample :
    ¬ ∃ msg, (placeOrder (fun q s => q ++ "#" ++ s) id (fun _ => "") sampleBaseState
        c5Params "req-1" "1700000000000").2.1 = PlaceOrderResult.thrown msg := by
  intro hex
  obtain ⟨msg, h⟩ := hex
  have heval : (placeOrder (fun q s => q ++ "#" ++ s) id (fun _ => "") sampleBaseState
      c5Params "req-1" "1700000000000").2.1
      = PlaceOrderResult.toast "Failed to get market price. Please try again." := by
    simp [placeOrder, sampleBaseState, c5Params, hasCredentials]
  rw [heval] at h
  exact PlaceOrderResult.noConfusion h

/-- C5 amended: for a symbol with no cached market price (credentials set,
channel open), `placeOrder` returns early with the no-price toast, resolving
void: the state is unchanged — in particular no pending-request entry is
created — and zero frames are written to the socket. -/
theorem c5_no_price_no_send (hmac : String → String → String) (enc : String → String)
    (ratToStr : ℚ → String) (st : TradingState) (params : OrderParams)
    (requestId timestamp : String)
    (hcred : hasCredentials st = true) (hws : st.wsOpen = true)
    (hprice : st.marketPrices.lookup params.symbol = none) :
    placeOrder hmac enc ratToStr st params requestId timestamp
      = (st, PlaceOrderResult.toast "Failed to get market price. Please try again.", []) := by
  simp [placeOrder, hcred, hws, hprice]

/-- C5 witness: the amended statement at the concrete credentialed state with
an empty price cache. -/
theorem c5_witness :
    hasCredentials sampleBaseState = true ∧ sampleBaseState.wsOpen = true
    ∧ sampleBaseState.marketPrices.lookup c5Params.symbol = none
    ∧ placeOrder (fun q s => q ++ "#" ++ s) id (fun _ => "") sampleBaseState c5Params
        "req-1" "1700000000000"
      = (sampleBaseState,
         PlaceOrderResult.toast "Failed to get market price. Please try again.", []) :=
  ⟨rfl, rfl, rfl,
    c5_no_price_no_send (fun q s => q ++ "#" ++ s) id (fun _ => "") sampleBaseState c5Params
      "req-1" "1700000000000" rfl rfl rfl⟩

/-! ### C6 — closeAllPositions reentrancy guard -/

theorem closeAllStart_inProgress (hmac : String → String → String) (enc : String → String)
    (ratToStr : ℚ → String) (st : TradingState) (idGen : ℕ → String) (timestamp : String)
    (hcred : hasCredentials st = true) (hflag : st.isClosingAllPositions = true) :
    closeAllPositionsStart hmac enc ratToStr st idGen timestamp
      = (st, CloseAllResult.alreadyInProgress, []) := by
  unfold closeAllPositionsStart
  rw [hcred]
  simp [hflag]

/-- C6: from an idle, credentialed state, `closeAllPositions` with an empty
map is a notification no-op with the guard released; otherwise it sends
exactly one close request per open position while holding the guard, a second
call issued while the first is in flight no-ops with `AlreadyInProgress` and
sends nothing, and the `finally` clears the guard on any settlement. -/
theorem c6_close_all_guarded (hmac : String → String → String) (enc : String → String)
    (ratToStr : ℚ → String) (st : TradingState) (idGen : ℕ → String) (timestamp : String)
    (hcred : hasCredentials st = true) (hflag : st.isClosingAllPositions = false) :
    closeAllSpec hmac enc ratToStr st idGen timestamp := by
  unfold closeAllSpec
  refine ⟨?_, ?_, fun s => rfl⟩
  · intro hempty
    simp [closeAllPositionsStart, hcred, hflag, hempty]
  · intro hne
    have hpos : (st.positionMap.map (fun kv => kv.2)).isEmpty = false := by
      cases hmap : st.positionMap with
      | nil => exact absurd hmap hne
      | cons a l => simp
    have hstart : closeAllPositionsStart hmac enc ratToStr st idGen timestamp
        = ({st with
              isClosingAllPositions := true
              messageHandlers := st.messageHandlers
                ++ ((st.positionMap.map (fun kv => kv.2)).enum.map
                    (fun np => closeOrderRequest hmac enc ratToStr
                      {st with isClosingAllPositions := true} np.2 (idGen np.1) timestamp)).map
                  (fun r => r.id)},
           CloseAllResult.inFlight
             ((st.positionMap.map (fun kv => kv.2)).enum.map
               (fun np => closeOrderRequest hmac enc ratToStr
                 {st with isClosingAllPositions := true} np.2 (idGen np.1) timestamp)),
           if st.wsOpen then
             (st.positionMap.map (fun kv => kv.2)).enum.map
               (fun np => closeOrderRequest hmac enc ratToStr
                 {st with isClosingAllPositions := true} np.2 (idGen np.1) timestamp)
           else []) := by
      simp [closeAllPositionsStart, hcred, hflag, hpos]
    refine ⟨⟨(st.positionMap.map (fun kv => kv.2)).enum.map
        (fun np => closeOrderRequest hmac enc ratToStr
          {st with isClosingAllPositions := true} np.2 (idGen np.1) timestamp), ?_, ?_, ?_⟩,
      ?_, ?_⟩
    · rw [hstart]
    · rw [List.length_map, List.enum_length, List.length_map]
    · rw [hstart]
    · rw [hstart]
    · rw [hstart]
      exact closeAllStart_inProgress hmac enc ratToStr _ idGen timestamp hcred rfl

/-- C6 witness: the contract at a concrete one-position credentialed state. -/
theorem c6_witness :
    hasCredentials c6State = true ∧ c6State.isClosingAllPositions = false
    ∧ closeAllSpec (fun q s => q ++ "#" ++ s) id (fun _ => "") c6State
        (fun n => toString n) "1700000000000" :=
  ⟨rfl, rfl,
    c6_close_all_guarded (fun q s => q ++ "#" ++ s) id (fun _ => "") c6State
      (fun n => toString n) "1700000000000" rfl rfl⟩

/-! ### C7 — quantity legalization bounds -/

/-- C7 counterexample: with the cached rule stepSize 0.001, minQty 0.0015,
maxQty 1000, the input 0.0016 legalizes to 0.001, which lies below `minQty` —
refuting the claimed `[minQty, maxQty]` containment for every cached rule. -/
theorem c7_counterexample :
    ¬ c7ClaimHolds c7BadSymbolInfo "FOOUSDT"
        { minQty := 3/2000, maxQty := 1000, stepSize := 1/1000 } (1/625) := by
  intro h
  have hstep : stepPrecision ((1:ℚ)/1000) = 3 := by
    have h3 := stepPrecision_pow10 3 (by norm_num)
    have he : (1:ℚ) / 10 ^ (3:ℕ) = 1/1000 := by norm_num
    rw [he] at h3
    exact h3
  have hout : adjustQuantityPrecision c7BadSymbolInfo "FOOUSDT" (1/625) = 1/1000 := by
    have hlook : c7BadSymbolInfo.lookup "FOOUSDT" = some c7BadInfo := rfl
    simp only [adjustQuantityPrecision, hlook, c7BadInfo]
    rw [show max ((3:ℚ)/2000) (min 1000 (1/625)) = 1/625 by norm_num]
    rw [show ((1:ℚ)/625) / (1/1000) = 8/5 by norm_num]
    rw [show ⌊(8:ℚ)/5⌋ = 1 by norm_num [Int.floor_eq_iff]]
    rw [hstep]
    norm_num [toFixedRound, round_eq]
  have hmin := h.2.2.1
  rw [hout] at hmin
  norm_num at hmin

/-- C7 amended: for a cached rule with stepSize `10^-k` (k ≤ 30),
`0 ≤ minQty ≤ maxQty` and `minQty` itself a multiple of the step,
`adjustQuantityPrecision` returns a non-negative integer multiple of the step
inside `[minQty, maxQty]` less than one step away from the clamped input; a
symbol with no cached rule passes through unchanged. -/
theorem c7_legalize_bounds (symbolInfo : List (String × SymbolInfo)) (symbol : String)
    (info : SymbolInfo) (f : LotSizeFilter) (q : ℚ) (k : ℕ) (m₀ : ℤ)
    (hlook : symbolInfo.lookup symbol = some info)
    (hfilt : info.lotSize = some f)
    (hk : k ≤ 30) (hs : f.stepSize = 1 / 10 ^ k)
    (h0 : 0 ≤ f.minQty) (hminmax : f.minQty ≤ f.maxQty)
    (hmul : f.minQty = (m₀ : ℚ) * f.stepSize) :
    c7ClaimHolds symbolInfo symbol f q
    ∧ (∀ sym q', symbolInfo.lookup sym = none →
        adjustQuantityPrecision symbolInfo sym q' = q') := by
  have hspos : (0:ℚ) < f.stepSize := by
    rw [hs]; positivity
  have hcmin : f.minQty ≤ max f.minQty (min f.maxQty q) := le_max_left _ _
  have hcmax : max f.minQty (min f.maxQty q) ≤ f.maxQty :=
    max_le hminmax (min_le_left _ _)
  have hfloor_le : (⌊max f.minQty (min f.maxQty q) / f.stepSize⌋ : ℚ) * f.stepSize
      ≤ max f.minQty (min f.maxQty q) := by
    rw [← le_div_iff₀ hspos]
    exact Int.floor_le _
  have hfloor_gt : max f.minQty (min f.maxQty q) - f.stepSize
      < (⌊max f.minQty (min f.maxQty q) / f.stepSize⌋ : ℚ) * f.stepSize := by
    have h1 : max f.minQty (min f.maxQty q) / f.stepSize - 1
        < (⌊max f.minQty (min f.maxQty q) / f.stepSize⌋ : ℚ) :=
      Int.sub_one_lt_floor _
    have h2 := mul_lt_mul_of_pos_right h1 hspos
    rw [sub_mul, one_mul, div_mul_cancel₀ _ hspos.ne'] at h2
    exact h2
  have hmin_floor : f.minQty
      ≤ (⌊max f.minQty (min f.maxQty q) / f.stepSize⌋ : ℚ) * f.stepSize := by
    have hd : (m₀ : ℚ) ≤ max f.minQty (min f.maxQty q) / f.stepSize := by
      rw [le_div_iff₀ hspos]
      exact hmul ▸ hcmin
    have hle : m₀ ≤ ⌊max f.minQty (min f.maxQty q) / f.stepSize⌋ := Int.le_floor.mpr hd
    calc f.minQty = (m₀ : ℚ) * f.stepSize := hmul
      _ ≤ (⌊max f.minQty (min f.maxQty q) / f.stepSize⌋ : ℚ) * f.stepSize :=
        mul_le_mul_of_nonneg_right (by exact_mod_cast hle) hspos.le
  have hout : adjustQuantityPrecision symbolInfo symbol q
      = (⌊max f.minQty (min f.maxQty q) / f.stepSize⌋ : ℚ) * f.stepSize := by
    simp only [adjustQuantityPrecision, hlook, hfilt]
    rw [hs, stepPrecision_pow10 k hk, mul_one_div, toFixedRound_int_div]
  refine ⟨⟨?_, ⟨_, hout⟩, ?_, ?_, ?_⟩, ?_⟩
  · rw [hout]; exact le_trans h0 hmin_floor
  · rw [hout]; exact hmin_floor
  · rw [hout]; exact le_trans hfloor_le hcmax
  · rw [hout, abs_sub_comm,
      abs_of_nonneg (by linarith : (0:ℚ) ≤ max f.minQty (min f.maxQty q)
        - ⌊max f.minQty (min f.maxQty q) / f.stepSize⌋ * f.stepSize)]
    linarith
  · intro sym q' hnone
    simp [adjustQuantityPrecision, hnone]

/-- C7 witness: the spec scenario — rule stepSize 0.001, minQty 0.001,
maxQty 1000, raw 0.15055 — satisfies the amended contract. -/
theorem c7_witness :
    c7ScenarioSymbolInfo.lookup "BTCUSDT" = some c7ScenarioInfo
    ∧ c7ScenarioInfo.lotSize = some c7ScenarioRule
    ∧ c7ScenarioRule.stepSize = 1 / 10 ^ (3:ℕ)
    ∧ (c7ClaimHolds c7ScenarioSymbolInfo "BTCUSDT" c7ScenarioRule (3011/20000)
       ∧ (∀ sym q', c7ScenarioSymbolInfo.lookup sym = none →
           adjustQuantityPrecision c7ScenarioSymbolInfo sym q' = q')) :=
  ⟨rfl, rfl, by norm_num [c7ScenarioRule],
    c7_legalize_bounds c7ScenarioSymbolInfo "BTCUSDT" c7ScenarioInfo c7ScenarioRule
      (3011/20000) 3 1 rfl rfl (by norm_num) (by norm_num [c7ScenarioRule])
      (by norm_num [c7ScenarioRule]) (by norm_num [c7ScenarioRule])
      (by norm_num [c7ScenarioRule])⟩

/-! ### C8 — news pagination and page clamping -/

/-- C8 counterexample: on a 25-item cache (2 pages), from current page 2 a
request for page 0 is ignored — the current page stays 2 — whereas clamping
into `[1, ceil(N/P)]` would make it 1. -/
theorem c8_counterexample :
    ¬ ((setPage 0 (setPage 2 c8State).1).1.currentPage
        = max 1 (min (getTotalPages (setPage 2 c8State).1) 0)) := by
  decide

/-- C8 amended: page `k` carries `min(P, N - (k-1)*P)` items in non-increasing
timestamp order — strictly decreasing if cached timestamps are distinct — for
`1 ≤ k ≤ ceil(N/P)`; an out-of-range page request (0 or `ceil(N/P)+1`) is
ignored, leaving the current page unchanged, rather than clamped or an
error. -/
theorem c8_pagination (cache : List (String × NewsItemM)) (k : ℕ) (st : NewsState) (p : ℕ)
    (_hk1 : 1 ≤ k)
    (_hk2 : k ≤ (cache.length + itemsPerPage - 1) / itemsPerPage) :
    c8Spec cache k st p := by
  have hsorted : (sortNewsDesc (cache.map (fun kv => kv.2))).Pairwise
      (fun a b => b.timestamp ≤ a.timestamp) := by
    haveI : IsTotal NewsItemM (fun a b => b.timestamp ≤ a.timestamp) :=
      ⟨fun a b => le_total b.timestamp a.timestamp⟩
    haveI : IsTrans NewsItemM (fun a b => b.timestamp ≤ a.timestamp) :=
      ⟨fun a b c h1 h2 => le_trans h2 h1⟩
    exact List.sorted_insertionSort _ _
  have hsub : List.Sublist (pageNews cache k) (sortNewsDesc (cache.map (fun kv => kv.2))) :=
    (List.take_sublist _ _).trans (List.drop_sublist _ _)
  refine ⟨?_, ?_, ?_, ?_, ?_⟩
  · have hlen : (sortNewsDesc (cache.map (fun kv => kv.2))).length = cache.length := by
      rw [sortNewsDesc, (List.perm_insertionSort _ _).length_eq, List.length_map]
    rw [pageNews, List.length_take, List.length_drop, hlen]
  · exact List.Pairwise.sublist hsub hsorted
  · intro hnodup
    have hmm2 : ((cache.map (fun kv => kv.2)).map (fun x => x.timestamp)).Nodup := by
      rw [List.map_map]
      simpa [Function.comp] using hnodup
    have hperm : List.Perm (sortNewsDesc (cache.map (fun kv => kv.2)))
        (cache.map (fun kv => kv.2)) := List.perm_insertionSort _ _
    have hnodup' : ((sortNewsDesc (cache.map (fun kv => kv.2))).map
        (fun x => x.timestamp)).Nodup :=
      ((hperm.map (fun x => x.timestamp)).nodup_iff).mpr hmm2
    have hne : (sortNewsDesc (cache.map (fun kv => kv.2))).Pairwise
        (fun a b => a.timestamp ≠ b.timestamp) := List.pairwise_map.mp hnodup'
    have hstrict : (sortNewsDesc (cache.map (fun kv => kv.2))).Pairwise
        (fun a b => b.timestamp < a.timestamp) :=
      (hsorted.and hne).imp (fun h => lt_of_le_of_ne h.1 (Ne.symm h.2))
    exact List.Pairwise.sublist hsub hstrict
  · intro hcond
    simp [setPage, hcond]
  · intro h1 h2
    simp [setPage, h1, h2]

/-- C8 witness: the amended contract at the concrete 25-item cache, page 1,
with the out-of-range request 0. -/
theorem c8_witness :
    1 ≤ 1 ∧ 1 ≤ (c8Cache.length + itemsPerPage - 1) / itemsPerPage
    ∧ c8Spec c8Cache 1 c8State 0 :=
  ⟨le_refl 1, by decide, c8_pagination c8Cache 1 c8State 0 (le_refl 1) (by decide)⟩

/-! ### C9 — news feed reconnect delay -/

/-- C9 counterexample: the news worker runs with the repository settings, in
which `exponentialBackoff` is false — so the delay before attempt 2 is the
flat 1000 ms with no jitter, not `min(base*2^(n-1), maxDelay) + jitter` as
claimed (at jitter sample 1/2 the formula gives 1250). -/
theorem c9_counterexample :
    ¬ (workerReconnectDelay websocketSettings 2 (1/2)
        = min ((1000:ℚ) * 2 ^ ((2:ℕ) - 1)) 1000 + (1/2) * 500) := by
  norm_num [workerReconnectDelay, jsOrDefault, websocketSettings]

/-- C9 amended: when `exponentialBackoff` is enabled the worker delay is
exactly `min(base * 2^(n-1), maxDelay) + rand*500`, non-decreasing in the
attempt number; with the repository's news settings (`exponentialBackoff:
false`) the delay is the constant `reconnectDelay` with no jitter; a
successful open resets the retry counter so the next failure is attempt 1. -/
theorem c9_backoff (s : WsSettings) (n : ℕ) (r : ℚ)
    (hb : s.exponentialBackoff = true) (hbase : 0 ≤ s.reconnectDelay) :
    c9Spec s n r := by
  have hbase' : 0 ≤ jsOrDefault s.reconnectDelay 1000 := by
    unfold jsOrDefault
    split
    · norm_num
    · exact hbase
  refine ⟨?_, ?_, ?_, ?_⟩
  · simp [workerReconnectDelay, hb]
  · simp only [workerReconnectDelay, hb, if_true]
    apply add_le_add_right
    apply min_le_min _ le_rfl
    apply mul_le_mul_of_nonneg_left _ hbase'
    apply pow_le_pow_right₀ (by norm_num)
    omega
  · intro m rr
    simp [workerReconnectDelay, websocketSettings, jsOrDefault]
  · simp only [workerHandleFail, workerOnOpen, workerReconnectDelay, hb, if_true]
    norm_num

/-- C9 witness: the amended contract with backoff enabled at attempt 1,
jitter sample 0. -/
theorem c9_witness :
    c9Settings.exponentialBackoff = true ∧ (0:ℚ) ≤ c9Settings.reconnectDelay
    ∧ c9Spec c9Settings 1 0 :=
  ⟨rfl, by norm_num [c9Settings], c9_backoff c9Settings 1 0 rfl (by norm_num [c9Settings])⟩

/-! ### C10 — status emission suppression -/

theorem setStatus_cases (s : ConnStatus) (st : TradingState)
    (h : hasCredentials st = false) :
    setStatus s st = (st, [])
    ∨ (s ≠ ConnStatus.disconnected
        ∧ setStatus s st = ({st with currentStatus := s}, [s])) := by
  unfold setStatus
  by_cases h1 : s = ConnStatus.disconnected ∧ hasCredentials st = false
  · left; rw [if_pos h1]
  · rw [if_neg h1]
    by_cases h2 : st.currentStatus = s
    · left; rw [if_pos h2]
    · right
      refine ⟨fun hs => h1 ⟨hs, h⟩, by rw [if_neg h2]⟩

theorem runSetStatuses_props (statuses : List ConnStatus) (st : TradingState)
    (hnc : hasCredentials st = false) :
    ConnStatus.disconnected ∉ (runSetStatuses st statuses).2
    ∧ ((runSetStatuses st statuses).1.currentStatus = ConnStatus.disconnected →
        st.currentStatus = ConnStatus.disconnected) := by
  induction statuses generalizing st with
  | nil => simp [runSetStatuses]
  | cons s rest ih =>
    simp only [runSetStatuses]
    rcases setStatus_cases s st hnc with h | ⟨hne, h⟩
    · rw [h]
      simpa using ih st hnc
    · rw [h]
      have hnc' : hasCredentials {st with currentStatus := s} = false := hnc
      have hih := ih {st with currentStatus := s} hnc'
      constructor
      · intro hmem
        rcases List.mem_append.mp hmem with hm | hm
        · exact hne (List.mem_singleton.mp hm).symm
        · exact hih.1 hm
      · intro hd
        exact absurd (hih.2 hd) hne

/-- C10: connection-status handlers fire only on an actual change — a
`setStatus` with the current value emits nothing, and every emission is the
newly adopted, different status — and with empty credentials the transition
to `disconnected` is suppressed, so over any call sequence `disconnected` is
never emitted and never becomes the current status unless it already was. -/
theorem c10_status_change_only (st : TradingState) (s : ConnStatus)
    (statuses : List ConnStatus) (hnc : hasCredentials st = false) :
    c10Spec st s statuses := by
  refine ⟨?_, ?_, (runSetStatuses_props statuses st hnc).1,
    (runSetStatuses_props statuses st hnc).2⟩
  · intro hcur
    unfold setStatus
    by_cases h1 : s = ConnStatus.disconnected ∧ hasCredentials st = false
    · rw [if_pos h1]
    · rw [if_neg h1, if_pos hcur]
  · intro st' hemit
    unfold setStatus at hemit ⊢
    by_cases h1 : s = ConnStatus.disconnected ∧ hasCredentials st' = false
    · rw [if_pos h1] at hemit
      exact absurd rfl hemit
    · rw [if_neg h1] at hemit ⊢
      by_cases h2 : st'.currentStatus = s
      · rw [if_pos h2] at hemit
        exact absurd rfl hemit
      · rw [if_neg h2]
        exact ⟨fun hs => h2 hs.symm, rfl, rfl⟩

/-- C10 witness: the contract at a concrete credential-less state over the
sequence connecting, connected, disconnected. -/
theorem c10_witness :
    hasCredentials c10State = false
    ∧ c10Spec c10State ConnStatus.connecting
        [ConnStatus.connecting, ConnStatus.connected, ConnStatus.disconnected] :=
  ⟨rfl, c10_status_change_only c10State ConnStatus.connecting
    [ConnStatus.connecting, ConnStatus.connected, ConnStatus.disconnected] rfl⟩

end CryptoTerminal
